import Mathlib

/-!
Verification development for the masir-ai goal/step core: a shallow
embedding of the plan extractor (components of the chat UI) and of the
goal/step persistence operations in src/lib/db/queries.ts, together with
theorems settling the specification claims.

Strings are modelled as Lean strings; the JavaScript regular expressions
used by the plan extractor are hand-compiled into executable matching
functions that reproduce the leftmost-match and backtracking behaviour of
the concrete patterns appearing in the source.
-/

namespace Masir

/-! ## Character and string utilities (JavaScript semantics) -/

/-- Whitespace class of JavaScript (regexp `\s` and `String.prototype.trim`),
restricted to the code points that can occur in the texts handled here. -/
def isJsWs (c : Char) : Bool :=
  c == ' ' || c == '\t' || c == '\n' || c == '\r' ||
  c == Char.ofNat 11 || c == Char.ofNat 12 ||
  c == Char.ofNat 0xa0 || c == Char.ofNat 0xfeff

/-- Trim on character lists, as JavaScript `trim`. -/
def jsTrimChars (cs : List Char) : List Char :=
  ((cs.dropWhile isJsWs).reverse.dropWhile isJsWs).reverse

/-- Trim on strings, as JavaScript `trim`. -/
def jsTrim (s : String) : String :=
  String.mk (jsTrimChars s.toList)

/-- Lowercasing a character list, as JavaScript `toLowerCase` on ASCII. -/
def lcChars (cs : List Char) : List Char := cs.map Char.toLower

/-- Split a character list at newline characters, as `split(/\n/)`. -/
def splitNl : List Char → List (List Char)
  | [] => [[]]
  | c :: rest =>
    if c == '\n' then [] :: splitNl rest
    else
      match splitNl rest with
      | [] => [[c]]
      | l :: ls => (c :: l) :: ls

/-- Case-insensitive prefix test between character lists. -/
def ciPre : List Char → List Char → Bool
  | [], _ => true
  | _ :: _, [] => false
  | a :: as, b :: bs => (a.toLower == b.toLower) && ciPre as bs

/-- Containment of `needle` in `hay`, as JavaScript `includes`. -/
def containsSeq (hay needle : List Char) : Bool :=
  if needle.isPrefixOf hay then true
  else
    match hay with
    | [] => false
    | _ :: r => containsSeq r needle

/-! ## Regex building blocks

Each JavaScript pattern of the extractor is compiled by hand.  `wsSuffixes`
enumerates the suffixes reachable by a greedy `\s*` in its backtracking
order (longest consumed run first). -/

/-- Suffixes after consuming `k` whitespace characters, for `k` from the
whole leading whitespace run down to `0`: the backtracking order of a
greedy `\s*`. -/
def wsSuffixes : List Char → List (List Char)
  | [] => [[]]
  | c :: rest =>
    if isJsWs c then wsSuffixes rest ++ [c :: rest]
    else [c :: rest]

/-- Optional literal `**` (pattern `(?:\*\*)?`): the consuming branch is
preferred, and whenever it applies the non-consuming branch cannot lead to
a match of the following literal, so stripping is deterministic. -/
def stripStars : List Char → List Char
  | '*' :: '*' :: r => r
  | cs => cs

/-- Generic leftmost search: try the matcher at every suffix, earliest
position first, including the empty suffix at the end of the input. -/
def searchA (f : List Char → Option α) : List Char → Option α
  | [] => f []
  | c :: rest => (f (c :: rest)).orElse (fun _ => searchA f rest)

/-! ## The `Goal:` pattern

Pattern: `(?:\*\*)?Goal(?:\*\*)?:\s*(.+?)(?:\n|$)` with flag `i`.
The lazy group (no dotall) is forced to run to the next newline or the end
of the input; the greedy `\s*` backtracks when the remaining input is
empty. -/

/-- Tail of the goal/description label: `\s*(.+?)` with terminator `\n`
or end of input, dot not matching newline. -/
def titleAfterWs (cs : List Char) : Option (List Char) :=
  (wsSuffixes cs).findSome? fun suf =>
    match suf with
    | [] => none
    | c :: _ => if c == '\n' then none else some (suf.takeWhile (fun d => d != '\n'))

/-- Attempt of the goal pattern at one position, returning capture 1. -/
def goalMatchAt (cs : List Char) : Option (List Char) :=
  let c1 := stripStars cs
  if ciPre "goal".toList c1 then
    let c2 := stripStars (c1.drop 4)
    match c2 with
    | ':' :: rest => titleAfterWs rest
    | _ => none
  else none

/-! ## The `Description:` pattern

Pattern: `(?:\*\*)?Description(?:\*\*)?:\s*(.+?)(?:\n(?:\*\*)?(?:Daily\s+)?Steps|$)`
with flags `is`.  The lazy group may match any character and stops at the
first position where a newline followed by a steps label begins, or at the
end of the input. -/

/-- Head of a steps label: `(?:\*\*)?(?:Daily\s+)?Steps`, case-insensitive.
Inside `Daily\s+` the greedy `\s+` is forced to the whole whitespace run
because the following literal starts with a non-whitespace character. -/
def stepsHeadAt (cs : List Char) : Bool :=
  let c1 := stripStars cs
  (ciPre "daily".toList c1 &&
    (match c1.drop 5 with
     | [] => false
     | c :: _ =>
       isJsWs c && ciPre "steps".toList ((c1.drop 5).dropWhile isJsWs))) ||
  ciPre "steps".toList c1

/-- Lazy scan of the description group after its first character: stop
before a newline that starts a steps label, or at the end. -/
def descScan : List Char → List Char
  | [] => []
  | c :: rest =>
    if c == '\n' && stepsHeadAt rest then []
    else c :: descScan rest

/-- Tail of the description label: greedy `\s*`, then the lazy group with
its compound terminator. -/
def descTail (cs : List Char) : Option (List Char) :=
  (wsSuffixes cs).findSome? fun suf =>
    match suf with
    | [] => none
    | c :: r => some (c :: descScan r)

/-- Attempt of the description pattern at one position. -/
def descMatchAt (cs : List Char) : Option (List Char) :=
  let c1 := stripStars cs
  if ciPre "description".toList c1 then
    let c2 := stripStars (c1.drop 11)
    match c2 with
    | ':' :: rest => descTail rest
    | _ => none
  else none

/-! ## The steps label

Shared prefix of both steps-section patterns:
`(?:\*\*)?(?:Daily\s+)?Steps(?:\*\*)?:?\s*\n`.  Because the greedy `\s*`
may swallow newline characters, the label admits several end positions;
`stepsLabelCandidatesAt` lists the suffixes after the consumed newline in
backtracking order (longest whitespace run first). -/

def stepsLabelCandidatesAt (cs : List Char) : List (List Char) :=
  let c1 := stripStars cs
  let afterSteps : Option (List Char) :=
    if ciPre "daily".toList c1 then
      match c1.drop 5 with
      | [] => none
      | c :: _ =>
        if isJsWs c then
          let r2 := (c1.drop 5).dropWhile isJsWs
          if ciPre "steps".toList r2 then some (r2.drop 5) else none
        else none
    else if ciPre "steps".toList c1 then some (c1.drop 5)
    else none
  match afterSteps with
  | none => []
  | some r =>
    let r2 := stripStars r
    let r3 := match r2 with | ':' :: rr => rr | _ => r2
    (wsSuffixes r3).filterMap fun suf =>
      match suf with
      | '\n' :: after => some after
      | _ => none

/-- Attempt, at one position, of the part_003 steps pattern
`...Steps...:?\s*\n(.+)` with dotall: the group takes the whole nonempty
remainder after the label. -/
def steps3MatchAt (cs : List Char) : Option (List Char) :=
  (stepsLabelCandidatesAt cs).findSome? fun after =>
    match after with
    | [] => none
    | _ :: _ => some after

/-! ## List items (part_004 labeled section)

Pattern after the label: `((?:\d+\.|[-*])\s*.+?(?:\n|$))+` with dotall.
Each repetition consumes a marker, greedy whitespace, then a lazy run of
arbitrary characters ending at (and consuming) the first newline, or at
the end of the input.  The capture group retains only the final
repetition. -/

/-- Rest after a numbered marker `\d+\.`. -/
def numMarker (cs : List Char) : Option (List Char) :=
  let ds := cs.takeWhile (·.isDigit)
  if ds.isEmpty then none
  else
    match cs.drop ds.length with
    | '.' :: r => some r
    | _ => none

/-- Rest after a marker `\d+\.` or `[-*]` (alternation in source order). -/
def itemMarker (cs : List Char) : Option (List Char) :=
  (numMarker cs).orElse fun _ =>
    match cs with
    | c :: r => if c == '-' || c == '*' then some r else none
    | [] => none

/-- Consume up to and including the first newline, or to the end. -/
def consumeToNl : List Char → List Char
  | [] => []
  | c :: r => if c == '\n' then r else consumeToNl r

/-- Rest after the item tail `\s*.+?(?:\n|$)` (dotall). -/
def itemTail (cs : List Char) : Option (List Char) :=
  (wsSuffixes cs).findSome? fun suf =>
    match suf with
    | [] => none
    | _ :: r => some (consumeToNl r)

/-- Rest after one whole item, or `none` when no item starts here. -/
def parseItem (cs : List Char) : Option (List Char) :=
  (itemMarker cs).bind itemTail

/-- Greedy repetition of items, keeping the text of the last one (the
value of the capture group); fuel-driven, and every item consumes at least
one character, so fuel one beyond the input length never runs out. -/
def itemsLoop : Nat → List Char → List Char → List Char
  | 0, last, _ => last
  | fuel + 1, last, cs =>
    match parseItem cs with
    | none => last
    | some rest => itemsLoop fuel (cs.take (cs.length - rest.length)) rest

/-- Capture of `((?:\d+\.|[-*])\s*.+?(?:\n|$))+`: the last item matched,
or `none` when not even one item matches. -/
def itemsMatch (cs : List Char) : Option (List Char) :=
  match parseItem cs with
  | none => none
  | some rest => some (itemsLoop (rest.length + 1) (cs.take (cs.length - rest.length)) rest)

/-- Attempt, at one position, of the part_004 steps pattern. -/
def steps4MatchAt (cs : List Char) : Option (List Char) :=
  (stepsLabelCandidatesAt cs).findSome? itemsMatch

/-! ## Line processing shared by both extractor variants -/

/-- Capture of `/^\d+\.\s*(.+)/` applied to a line (lines contain no
newline, so the greedy group takes the whole remainder; the greedy `\s*`
backtracks one character when the remainder would be empty). -/
def numExec (l : List Char) : Option (List Char) :=
  (numMarker l).bind fun r =>
    (wsSuffixes r).findSome? fun suf =>
      match suf with
      | [] => none
      | _ :: _ => some suf

/-- Capture of `/^[-*]\s*(.+)/` applied to a line. -/
def bulExec (l : List Char) : Option (List Char) :=
  match l with
  | c :: r =>
    if c == '-' || c == '*' then
      (wsSuffixes r).findSome? fun suf =>
        match suf with
        | [] => none
        | _ :: _ => some suf
    else none
  | [] => none

/-- Test `/^\d+\.|^[-*]/` used by the part_004 fallback. -/
def itemTest (l : List Char) : Bool :=
  (let ds := l.takeWhile (·.isDigit)
   !ds.isEmpty &&
     (match l.drop ds.length with
      | '.' :: _ => true
      | _ => false)) ||
  (match l with
   | c :: _ => c == '-' || c == '*'
   | [] => false)

/-- Marker payload of a line: the numbered capture if it matches, else the
bulleted capture, else empty — mirroring the source chain
`numbered?.[1]?.trim() ?? bulleted?.[1]?.trim() ?? ""`. -/
def linePayload (l : List Char) : List Char :=
  match numExec l with
  | some g => jsTrimChars g
  | none =>
    match bulExec l with
    | some g => jsTrimChars g
    | none => []

/-- The line pipeline both variants run on a candidate block: split into
lines, trim, keep list lines, take payloads, drop empty payloads. -/
def blockTitles (block : List Char) : List (List Char) :=
  let lines := (splitNl block).map jsTrimChars
  let kept := lines.filter fun l => (numExec l).isSome || (bulExec l).isSome
  (kept.map linePayload).filter fun t => !t.isEmpty

/-! ## The extracted plan -/

structure PlanStep where
  title : String
deriving DecidableEq, Repr

structure Plan where
  goalTitle : String
  description : Option String
  steps : List PlanStep
deriving DecidableEq, Repr

/-- Default step title substituted when nothing was extracted. -/
def defaultStepTitle : String := "Start working on your goal"

/-- Goal title extraction shared by both variants. -/
def extractGoalTitle (cs : List Char) : String :=
  match searchA goalMatchAt cs with
  | some g => String.mk (jsTrimChars g)
  | none => "New Goal"

/-- Description extraction shared by both variants. -/
def extractDescription (cs : List Char) : Option String :=
  (searchA descMatchAt cs).map fun g => String.mk (jsTrimChars g)

namespace Part003

/-- Step titles the part_003 variant extracts before defaulting: the line
pipeline on the whole remainder after a steps label, then the duplicate
filters against the goal title and the description. -/
def survivors (text : String) : List (List Char) :=
  let cs := text.toList
  let goalTitle := extractGoalTitle cs
  let description := extractDescription cs
  let gL := lcChars goalTitle.toList
  let dL := match description with
    | some d => lcChars d.toList
    | none => []
  match searchA steps3MatchAt cs with
  | none => []
  | some block =>
    (blockTitles block).filter fun t =>
      let tL := lcChars t
      if tL = gL ∨ tL = dL then false
      else if 5 < gL.length ∧ containsSeq tL gL = true then false
      else if 5 < dL.length ∧ containsSeq tL dL = true then false
      else true

/-- Plan extractor of the part_003 variant of the plan action button:
steps are taken from the whole remainder after a steps label, then
filtered against the goal title and the description; with no label match
no step lines are produced; an empty result is replaced by the single
default step. -/
def extractPlanFromText (text : String) : Plan :=
  let cs := text.toList
  let goalTitle := extractGoalTitle cs
  let description := extractDescription cs
  let steps0 := survivors text
  let steps1 := if steps0.isEmpty then [defaultStepTitle.toList] else steps0
  { goalTitle := goalTitle
    description := description
    steps := steps1.map fun t => ⟨String.mk t⟩ }

end Part003

namespace Part004

/-- Fallback candidates of the part_004 variant: payloads of the list
lines found anywhere in the text. -/
def fallbackItems (cs : List Char) : List (List Char) :=
  let allLines := (splitNl cs).map jsTrimChars
  ((allLines.filter itemTest).map linePayload).filter fun t => !t.isEmpty

/-- Step titles from the labeled steps section of the part_004 variant:
the capture retains only the last list line, and the line pipeline runs on
that line alone. -/
def labeledTitles (text : String) : List (List Char) :=
  match searchA steps4MatchAt text.toList with
  | none => []
  | some lastItem => blockTitles lastItem

/-- Plan extractor of the part_004 variant of the plan action button: the
steps-section capture retains only the last list line; when the labeled
section fails to match, every list line of the whole text is used; an
empty result is replaced by the single default step. -/
def extractPlanFromText (text : String) : Plan :=
  let cs := text.toList
  let goalTitle := extractGoalTitle cs
  let description := extractDescription cs
  let steps0 := labeledTitles text
  let steps1 :=
    if steps0.isEmpty then
      let listItems := fallbackItems cs
      if !listItems.isEmpty then listItems else steps0
    else steps0
  let steps2 := if steps1.isEmpty then [defaultStepTitle.toList] else steps1
  { goalTitle := goalTitle
    description := description
    steps := steps2.map fun t => ⟨String.mk t⟩ }

end Part004

/-! ## Persistence model

The two relations of the migration, `Goal` and `Step`, are modelled as
lists of records in insertion order.  Opaque identifiers and timestamps
are natural numbers; identifier generation is externalised into explicit
arguments of the operations.  Each operation from src/lib/db/queries.ts
becomes a function from the database (and its arguments) to a result
together with the database after the operation; an operation that throws
leaves the database unchanged, matching either fail-before-write or the
rollback of the surrounding transaction. -/

structure Goal where
  id : Nat
  chatId : Nat
  userId : Nat
  createdFromMessageId : Option Nat
  title : String
  description : Option String
  status : String
  priority : String
  deadline : Option Nat
  createdAt : Nat
deriving DecidableEq, Repr

structure Step where
  id : Nat
  goalId : Nat
  title : String
  isCompleted : Bool
  order : Int
  completedAt : Option Nat
  createdAt : Nat
deriving DecidableEq, Repr

structure DB where
  goals : List Goal
  steps : List Step
deriving DecidableEq, Repr

def emptyDB : DB := ⟨[], []⟩

/-- Error kinds of ChatSDKError as used by these operations. -/
inductive ErrKind
  | badRequestGoal
  | notFoundGoal
  | badRequestDatabase
  | unauthorizedChat
deriving DecidableEq, Repr

structure Err where
  kind : ErrKind
  msg : String
deriving DecidableEq, Repr

def goalStatuses : List String := ["not_started", "in_progress", "completed"]

def goalPriorities : List String := ["low", "medium", "high"]

/-- Steps of one goal in table order. -/
def stepsOfGoal (db : DB) (goalId : Nat) : List Step :=
  db.steps.filter fun t => t.goalId == goalId

/-- The relation used by `orderBy(asc(step.order))`. -/
def byOrder (a b : Step) : Prop := a.order ≤ b.order

instance : DecidableRel byOrder := fun a b => Int.decLe a.order b.order

instance : IsTotal Step byOrder := ⟨fun a b => Int.le_total a.order b.order⟩

instance : IsTrans Step byOrder := ⟨fun _ _ _ hab hbc => le_trans hab hbc⟩

/-- getGoalById: first goal with the id, or null. -/
def getGoalById (db : DB) (id : Nat) : Option Goal :=
  db.goals.find? fun g => g.id == id

/-- createGoal: validates non-blank title and enumerated status/priority,
then inserts with defaults. -/
def createGoal (db : DB) (chatId userId : Nat) (title : String)
    (description : Option String) (status priority : Option String)
    (deadline : Option Nat) (createdFromMessageId : Option Nat)
    (now newId : Nat) : Except Err Goal × DB :=
  if jsTrim title = "" then
    (.error ⟨.badRequestGoal, "Title cannot be empty"⟩, db)
  else if status.isSome ∧ ¬ goalStatuses.contains status.get! then
    (.error ⟨.badRequestGoal, "Invalid status value"⟩, db)
  else if priority.isSome ∧ ¬ goalPriorities.contains priority.get! then
    (.error ⟨.badRequestGoal, "Invalid priority value"⟩, db)
  else
    let g : Goal :=
      { id := newId, chatId := chatId, userId := userId
        createdFromMessageId := createdFromMessageId
        title := title, description := description
        status := status.getD "not_started", priority := priority.getD "medium"
        deadline := deadline, createdAt := now }
    (.ok g, { db with goals := db.goals ++ [g] })

/-- updateGoal: loads the goal, validates supplied fields, writes only the
supplied fields. -/
def updateGoal (db : DB) (id : Nat) (title : Option String)
    (description : Option (Option String)) (status priority : Option String)
    (deadline : Option (Option Nat)) : Except Err Unit × DB :=
  match getGoalById db id with
  | none => (.error ⟨.notFoundGoal, "Goal not found"⟩, db)
  | some _ =>
    if title.isSome ∧ jsTrim title.get! = "" then
      (.error ⟨.badRequestGoal, "Title cannot be empty"⟩, db)
    else if status.isSome ∧ ¬ goalStatuses.contains status.get! then
      (.error ⟨.badRequestGoal, "Invalid status value"⟩, db)
    else if priority.isSome ∧ ¬ goalPriorities.contains priority.get! then
      (.error ⟨.badRequestGoal, "Invalid priority value"⟩, db)
    else
      let upd : Goal → Goal := fun g =>
        if g.id == id then
          { g with
            title := title.getD g.title
            description := description.getD g.description
            status := status.getD g.status
            priority := priority.getD g.priority
            deadline := deadline.getD g.deadline }
        else g
      (.ok (), { db with goals := db.goals.map upd })

/-- deleteGoal: removes the goal; the `ON DELETE cascade` foreign key of
Step.goalId removes its steps. -/
def deleteGoal (db : DB) (id : Nat) : Option Goal × DB :=
  let deleted := db.goals.find? fun g => g.id == id
  (deleted,
   { goals := db.goals.filter fun g => !(g.id == id)
     steps := db.steps.filter fun t => !(t.goalId == id) })

/-- Maximum existing order, or -1 with no steps (`Math.max` over the
selected orders). -/
def maxOrder (l : List Step) : Int :=
  l.foldl (fun m t => max m t.order) (-1)

/-- createStep: validates non-blank title, then parent-goal existence,
computes the order when omitted, inserts a fresh incomplete step. -/
def createStep (db : DB) (goalId : Nat) (title : String) (ord : Option Int)
    (now newId : Nat) : Except Err Step × DB :=
  if jsTrim title = "" then
    (.error ⟨.badRequestGoal, "Step title cannot be empty"⟩, db)
  else
    match getGoalById db goalId with
    | none => (.error ⟨.notFoundGoal, "Goal not found"⟩, db)
    | some _ =>
      let stepOrder := match ord with
        | some o => o
        | none => maxOrder (stepsOfGoal db goalId) + 1
      let s : Step :=
        { id := newId, goalId := goalId, title := title, isCompleted := false
          order := stepOrder, completedAt := none, createdAt := now }
      (.ok s, { db with steps := db.steps ++ [s] })

/-- Input row of the bulk step operations. -/
structure StepIn where
  title : String
  order : Option Int
deriving DecidableEq, Repr

/-- Rows built by createSteps: explicit order kept, otherwise the running
counter (incremented only when used, as `stepData.order ?? currentOrder++`). -/
def buildInserts (goalId now idBase : Nat) : List StepIn → Int → Nat → List Step
  | [], _, _ => []
  | sd :: rest, cur, k =>
    match sd.order with
    | some o =>
      { id := idBase + k, goalId := goalId, title := sd.title, isCompleted := false
        order := o, completedAt := none, createdAt := now } :: buildInserts goalId now idBase rest cur (k + 1)
    | none =>
      { id := idBase + k, goalId := goalId, title := sd.title, isCompleted := false
        order := cur, completedAt := none, createdAt := now } :: buildInserts goalId now idBase rest (cur + 1) (k + 1)

/-- createSteps: no validation of the parent goal or of titles; the rows
are inserted directly, and the only failure is the storage layer itself —
modelled here by the `Step.goalId → Goal.id` foreign key — whose exception
the catch block wraps as a database error. -/
def createSteps (db : DB) (goalId : Nat) (stepsData : List StepIn)
    (now idBase : Nat) : Except Err (List Step) × DB :=
  let maxO := maxOrder (stepsOfGoal db goalId)
  let toInsert := buildInserts goalId now idBase stepsData (maxO + 1) 0
  if (getGoalById db goalId).isSome then
    (.ok toInsert, { db with steps := db.steps ++ toInsert })
  else
    (.error ⟨.badRequestDatabase, "Failed to create steps"⟩, db)

/-- getStepsByGoalId: the goal's steps ordered ascending by order. -/
def getStepsByGoalId (db : DB) (goalId : Nat) : List Step :=
  (stepsOfGoal db goalId).insertionSort byOrder

/-- updateStep: loads the step, validates a supplied title, and writes the
supplied fields, setting completedAt together with isCompleted in the same
write. -/
def updateStep (db : DB) (id : Nat) (title : Option String)
    (isCompleted : Option Bool) (now : Nat) : Except Err Unit × DB :=
  match db.steps.find? (fun t => t.id == id) with
  | none => (.error ⟨.notFoundGoal, "Step not found"⟩, db)
  | some _ =>
    if title.isSome ∧ jsTrim title.get! = "" then
      (.error ⟨.badRequestGoal, "Step title cannot be empty"⟩, db)
    else
      let upd : Step → Step := fun t =>
        if t.id == id then
          let t1 := { t with title := title.getD t.title }
          match isCompleted with
          | some b => { t1 with isCompleted := b, completedAt := if b then some now else none }
          | none => t1
        else t
      (.ok (), { db with steps := db.steps.map upd })

/-- toggleStepCompletion: reads the current value, flips it, writes the
flag and the matching completedAt in one write. -/
def toggleStepCompletion (db : DB) (id : Nat) (now : Nat) : Except Err Unit × DB :=
  match db.steps.find? (fun t => t.id == id) with
  | none => (.error ⟨.notFoundGoal, "Step not found"⟩, db)
  | some cur =>
    let b := !cur.isCompleted
    let upd : Step → Step := fun t =>
      if t.id == id then { t with isCompleted := b, completedAt := if b then some now else none }
      else t
    (.ok (), { db with steps := db.steps.map upd })

/-- One pass of the renumber loop of deleteStep: set the order of the row
with the given id. -/
def setOrder (l : List Step) (sid : Nat) (o : Int) : List Step :=
  l.map fun t => if t.id == sid then { t with order := o } else t

/-- The renumber loop: the i-th remaining step (in ascending order of its
current order) gets order i. -/
def renumLoop (i : Nat) (rem : List Step) (acc : List Step) : List Step :=
  match rem with
  | [] => acc
  | t :: rest => renumLoop (i + 1) rest (setOrder acc t.id (Int.ofNat i))

/-- deleteStep: inside one transaction, load the step (null result when
absent, without error), delete it, reload the goal's remaining steps
ordered by order, and rewrite their orders densely from 0. -/
def deleteStep (db : DB) (id : Nat) : Option Step × DB :=
  match db.steps.find? (fun t => t.id == id) with
  | none => (none, db)
  | some deleted =>
    let afterDelete := db.steps.filter fun t => !(t.id == id)
    let remaining :=
      (afterDelete.filter fun t => t.goalId == deleted.goalId).insertionSort byOrder
    (some deleted, { db with steps := renumLoop 0 remaining afterDelete })

/-- createGoalWithSteps: one transaction inserting the goal and all plan
steps, each step's order its explicit order when supplied and otherwise
its index; `inj` injects a storage failure inside the transaction, which
rolls back and is re-wrapped as one database error carrying the original
message. -/
def planSteps (goalId now idBase : Nat) : List StepIn → Nat → List Step
  | [], _ => []
  | sd :: rest, idx =>
    { id := idBase + idx, goalId := goalId, title := sd.title, isCompleted := false
      order := sd.order.getD (Int.ofNat idx), completedAt := none, createdAt := now }
      :: planSteps goalId now idBase rest (idx + 1)

def createGoalWithSteps (db : DB) (chatId userId : Nat) (title : String)
    (description : Option String) (status priority : Option String)
    (deadline : Option Nat) (createdFromMessageId : Option Nat)
    (stepsData : List StepIn) (now gid sidBase : Nat)
    (inj : Option String) : Except Err (Goal × List Step) × DB :=
  match inj with
  | some m =>
    (.error ⟨.badRequestDatabase, "Failed to create goal with steps: " ++ m⟩, db)
  | none =>
    let g : Goal :=
      { id := gid, chatId := chatId, userId := userId
        createdFromMessageId := createdFromMessageId
        title := title, description := description
        status := status.getD "not_started", priority := priority.getD "medium"
        deadline := deadline, createdAt := now }
    let created := planSteps gid now sidBase stepsData 0
    (.ok (g, created), { goals := db.goals ++ [g], steps := db.steps ++ created })

/-- Entry of reorderSteps. -/
structure OrderIn where
  id : Nat
  order : Int
deriving DecidableEq, Repr

/-- Transaction body of reorderSteps: each entry checked to belong to the
goal, then its order written; any failure aborts the whole loop. -/
def reorderGo (goalId : Nat) (steps : List Step) : List OrderIn → Except Err (List Step)
  | [] => .ok steps
  | e :: rest =>
    match steps.find? (fun t => t.id == e.id && t.goalId == goalId) with
    | none =>
      .error ⟨.notFoundGoal,
        "Step " ++ toString e.id ++ " not found or does not belong to goal " ++ toString goalId⟩
    | some _ => reorderGo goalId (setOrder steps e.id e.order) rest

/-- reorderSteps: the loop inside one transaction; on error nothing is
committed. -/
def reorderSteps (db : DB) (goalId : Nat) (stepOrders : List OrderIn) :
    Except Err Unit × DB :=
  match reorderGo goalId db.steps stepOrders with
  | .ok s => (.ok (), { db with steps := s })
  | .error e => (.error e, db)

/-- Entry of bulkUpdateSteps. -/
structure StepUpd where
  id : Nat
  title : Option String
  isCompleted : Option Bool
  order : Option Int
deriving DecidableEq, Repr

/-- Per-entry write of bulkUpdateSteps: supplied fields only, completedAt
set with isCompleted in the same write. -/
def applyBulk (u : StepUpd) (now : Nat) (t : Step) : Step :=
  if t.id == u.id then
    let t1 := { t with title := u.title.getD t.title }
    let t2 := match u.isCompleted with
      | some b => { t1 with isCompleted := b, completedAt := if b then some now else none }
      | none => t1
    { t2 with order := u.order.getD t2.order }
  else t

/-- Transaction body of bulkUpdateSteps: ownership checked per entry. -/
def bulkGo (goalId : Nat) (now : Nat) (steps : List Step) :
    List StepUpd → Except Err (List Step)
  | [] => .ok steps
  | u :: rest =>
    match steps.find? (fun t => t.id == u.id && t.goalId == goalId) with
    | none =>
      .error ⟨.notFoundGoal,
        "Step " ++ toString u.id ++ " not found or does not belong to goal " ++ toString goalId⟩
    | some _ => bulkGo goalId now (steps.map (applyBulk u now)) rest

/-- bulkUpdateSteps: the loop inside one transaction; all entries succeed
or none are committed. -/
def bulkUpdateSteps (db : DB) (goalId : Nat) (updates : List StepUpd)
    (now : Nat) : Except Err Unit × DB :=
  match bulkGo goalId now db.steps updates with
  | .ok s => (.ok (), { db with steps := s })
  | .error e => (.error e, db)

structure Progress where
  completed : Nat
  total : Nat
  percentage : Nat
deriving DecidableEq, Repr

/-! ## IEEE binary64 arithmetic for the progress percentage

The source computes `Math.round((completed / total) * 100)` in JavaScript
numbers, that is IEEE binary64: the division and the multiplication each
round their exact result to the nearest representable double (ties to
even), and `Math.round` then takes the integer nearest to the exact value
of that double, ties toward positive infinity.  The operands here are
small nonnegative integers and the intermediate values stay in the normal
range, so the doubles are simulated exactly over the rationals with a
53-bit significand. -/

/-- Round the nonnegative fraction n / d to the nearest integer, ties to
even. -/
def rneFrac (n d : Nat) : Nat :=
  let m0 := n / d
  let r := n % d
  if 2 * r < d then m0
  else if d < 2 * r then m0 + 1
  else if m0 % 2 = 0 then m0 else m0 + 1

/-- Fuel-driven floor of the base-2 logarithm of a natural number. -/
def natLog2F : Nat → Nat → Nat
  | 0, _ => 0
  | fuel + 1, n => if 2 ≤ n then natLog2F fuel (n / 2) + 1 else 0

/-- Smallest k, starting from the given one, with d ≤ n * 2 ^ k: the
magnitude of the (negative) exponent of n / d < 1.  The fuel bounds the
exponent far beyond the binary64 range. -/
def negExp (n d : Nat) : Nat → Nat → Nat
  | k, 0 => k
  | k, fuel + 1 => if d ≤ n * 2 ^ k then k else negExp n d (k + 1) fuel

/-- The binary64 double nearest to the nonnegative fraction n / d (d > 0,
normal range), returned as an exact unreduced fraction: the 53-bit
significand is rounded to nearest, ties to even. -/
def fp64Frac (n d : Nat) : Nat × Nat :=
  if n = 0 then (0, 1)
  else if d ≤ n then
    let e := natLog2F 1100 (n / d)
    if e ≤ 52 then
      (rneFrac (n * 2 ^ (52 - e)) d, 2 ^ (52 - e))
    else
      (rneFrac n (d * 2 ^ (e - 52)) * 2 ^ (e - 52), 1)
  else
    let k := negExp n d 1 1100
    (rneFrac (n * 2 ^ (52 + k)) d, 2 ^ (52 + k))

/-- `Math.round((completed / total) * 100)` computed in binary64: the
division and the multiplication each round to the nearest double, and
Math.round takes the integer nearest to the exact value of the result,
ties toward positive infinity. -/
def jsPercentage (completed total : Nat) : Nat :=
  let q1 := fp64Frac completed total
  let q2 := fp64Frac (q1.1 * 100) q1.2
  (2 * q2.1 + q2.2) / (2 * q2.2)

/-- getGoalProgress: counts over the goal's steps; the percentage is
`Math.round((completed / total) * 100)` in IEEE binary64 arithmetic,
simulated exactly, and 0 with no steps. -/
def getGoalProgress (db : DB) (goalId : Nat) : Progress :=
  let steps := getStepsByGoalId db goalId
  let total := steps.length
  let completed := (steps.filter fun t => t.isCompleted).length
  { completed := completed, total := total
    percentage := if 0 < total then jsPercentage completed total else 0 }

/-- Concrete database with forty steps of which twenty-three are
completed: the ratio at which the double computation rounds down while
exact rounding of 57.5 goes up. -/
def dbForty : DB :=
  ⟨[⟨1, 1, 1, none, "G", none, "in_progress", "medium", none, 0⟩],
   (List.range 40).map fun k =>
     ⟨k + 1, 1, "s", decide (k < 23), Int.ofNat k,
      if k < 23 then some 1 else none, 0⟩⟩

/-- deleteStepAction: the caller-facing server action; with a session it
calls deleteStep and reports success unconditionally. -/
def deleteStepAction (db : DB) (session : Option Nat) (stepId : Nat) :
    Except Err Bool × DB :=
  match session with
  | none => (.error ⟨.unauthorizedChat, "You must be signed in"⟩, db)
  | some _ => (.ok true, (deleteStep db stepId).2)

/-! ## Reachable states

`Reach` closes the empty database under every mutating operation of the
store, quantified over all arguments; it is the set of states the step
operations can produce. -/

inductive Reach : DB → Prop
  | empty : Reach emptyDB
  | viaCreateGoal (db c u ti d s p dl m now nid) :
      Reach db → Reach (createGoal db c u ti d s p dl m now nid).2
  | viaUpdateGoal (db i ti d s p dl) :
      Reach db → Reach (updateGoal db i ti d s p dl).2
  | viaDeleteGoal (db i) :
      Reach db → Reach (deleteGoal db i).2
  | viaCreateStep (db g ti o now nid) :
      Reach db → Reach (createStep db g ti o now nid).2
  | viaCreateSteps (db g data now base) :
      Reach db → Reach (createSteps db g data now base).2
  | viaUpdateStep (db i ti c now) :
      Reach db → Reach (updateStep db i ti c now).2
  | viaToggleStep (db i now) :
      Reach db → Reach (toggleStepCompletion db i now).2
  | viaDeleteStep (db i) :
      Reach db → Reach (deleteStep db i).2
  | viaCreateGoalWithSteps (db c u ti d s p dl m data now gid base inj) :
      Reach db → Reach (createGoalWithSteps db c u ti d s p dl m data now gid base inj).2
  | viaReorderSteps (db g os) :
      Reach db → Reach (reorderSteps db g os).2
  | viaBulkUpdateSteps (db g us now) :
      Reach db → Reach (bulkUpdateSteps db g us now).2

/-- The completion-timestamp invariant of one step: completedAt is
non-null exactly when isCompleted holds. -/
def stepTsOK (t : Step) : Prop := t.completedAt.isSome = t.isCompleted

/-- The invariant over a whole database. -/
def InvCompleted (db : DB) : Prop := ∀ t ∈ db.steps, stepTsOK t

/-! ## Renumbering after deleteStep (C2)

`applyRen i rem` is the pointwise effect of the renumber loop on a row:
the row whose id appears at position j of `rem` receives order i + j. -/

def applyRen : Nat → List Step → Step → Step
  | _, [], t => t
  | i, r :: rest, t =>
    if t.id == r.id then { t with order := Int.ofNat i } else applyRen (i + 1) rest t

/-- The renumbered rows in sorted position order. -/
def withOrders : Nat → List Step → List Step
  | _, [] => []
  | i, t :: r => { t with order := Int.ofNat i } :: withOrders (i + 1) r

/-- Concrete database for the C2 witness: one goal with three steps whose
order values contain a duplicate, as reorderSteps can produce. -/
def dbW : DB :=
  ⟨[⟨1, 1, 1, none, "G", none, "not_started", "medium", none, 0⟩],
   [⟨1, 1, "a", false, 0, none, 0⟩,
    ⟨2, 1, "b", false, 1, none, 0⟩,
    ⟨3, 1, "c", false, 1, none, 0⟩]⟩

/-- The steps-label hit used to phrase absence of a steps label followed
by a newline. -/
def stepsLabelHit (cs : List Char) : Option Unit :=
  match stepsLabelCandidatesAt cs with
  | [] => none
  | _ :: _ => some ()

/-- Whether the text contains, at any position, a steps label (optionally
emphasis-wrapped, optionally prefixed Daily, optional colon, case
insensitive) followed by a newline. -/
def hasStepsLabel (text : String) : Bool :=
  (searchA stepsLabelHit text.toList).isSome

/-- Claim-side description of the step titles harvested from the whole
text: each line, after trimming, that matches the numbered or bulleted
list pattern and has a nonempty payload contributes its payload. -/
def listLineTitle (l : List Char) : Option String :=
  let lt := jsTrimChars l
  if itemTest lt then
    if (linePayload lt).isEmpty then none else some (String.mk (linePayload lt))
  else none

def listItemTitles (text : String) : List String :=
  (splitNl text.toList).filterMap listLineTitle

/-- Concrete database with one goal and no steps. -/
def dbOneGoal : DB :=
  ⟨[⟨1, 1, 1, none, "G", none, "not_started", "medium", none, 0⟩], []⟩

/-! ## Blank goal titles (C6)

`ReachStores` closes the empty database under the GoalStore and StepStore
operations — the operations the claim is about — without the composite
createGoalWithSteps, which performs no title validation of its own (its
repository caller validates and trims before invoking it). -/

inductive ReachStores : DB → Prop
  | empty : ReachStores emptyDB
  | viaCreateGoal (db c u ti d s p dl m now nid) :
      ReachStores db → ReachStores (createGoal db c u ti d s p dl m now nid).2
  | viaUpdateGoal (db i ti d s p dl) :
      ReachStores db → ReachStores (updateGoal db i ti d s p dl).2
  | viaDeleteGoal (db i) :
      ReachStores db → ReachStores (deleteGoal db i).2
  | viaCreateStep (db g ti o now nid) :
      ReachStores db → ReachStores (createStep db g ti o now nid).2
  | viaCreateSteps (db g data now base) :
      ReachStores db → ReachStores (createSteps db g data now base).2
  | viaUpdateStep (db i ti c now) :
      ReachStores db → ReachStores (updateStep db i ti c now).2
  | viaToggleStep (db i now) :
      ReachStores db → ReachStores (toggleStepCompletion db i now).2
  | viaDeleteStep (db i) :
      ReachStores db → ReachStores (deleteStep db i).2
  | viaReorderSteps (db g os) :
      ReachStores db → ReachStores (reorderSteps db g os).2
  | viaBulkUpdateSteps (db g us now) :
      ReachStores db → ReachStores (bulkUpdateSteps db g us now).2

/-- No persisted goal has a blank title. -/
def GoalTitlesOK (db : DB) : Prop := ∀ g ∈ db.goals, jsTrim g.title ≠ ""

/-! ## Progress (C9) -/

/-- Concrete database with three steps, one completed. -/
def dbProgress : DB :=
  ⟨[⟨1, 1, 1, none, "G", none, "in_progress", "medium", none, 0⟩],
   [⟨1, 1, "a", true, 0, some 5, 0⟩,
    ⟨2, 1, "b", false, 1, none, 0⟩,
    ⟨3, 1, "c", false, 2, none, 0⟩]⟩

lemma stepTsOK_setOrder (sid : Nat) (o : Int) (t : Step) (h : stepTsOK t) :
    stepTsOK (if t.id == sid then { t with order := o } else t) := by
  by_cases hc : t.id == sid <;> simp [hc, stepTsOK] at h ⊢ <;> exact h

lemma tsOK_map_setOrder {l : List Step} (h : ∀ t ∈ l, stepTsOK t) (sid : Nat) (o : Int) :
    ∀ t ∈ setOrder l sid o, stepTsOK t := by
  intro t ht
  rcases List.mem_map.mp ht with ⟨a, ha, rfl⟩
  exact stepTsOK_setOrder sid o a (h a ha)

lemma tsOK_renumLoop {rem : List Step} :
    ∀ {i : Nat} {acc : List Step}, (∀ t ∈ acc, stepTsOK t) →
      ∀ t ∈ renumLoop i rem acc, stepTsOK t := by
  induction rem with
  | nil => intro i acc h t ht; exact h t ht
  | cons r rest ih =>
    intro i acc h t ht
    exact ih (tsOK_map_setOrder h r.id (Int.ofNat i)) t ht

lemma tsOK_buildInserts (g now base : Nat) :
    ∀ (data : List StepIn) (cur : Int) (k : Nat),
      ∀ t ∈ buildInserts g now base data cur k, stepTsOK t := by
  intro data
  induction data with
  | nil => intro cur k t ht; simp [buildInserts] at ht
  | cons sd rest ih =>
    intro cur k t ht
    cases hod : sd.order with
    | some o =>
      simp only [buildInserts, hod] at ht
      rcases List.mem_cons.mp ht with h | h
      · simp [h, stepTsOK]
      · exact ih cur (k + 1) t h
    | none =>
      simp only [buildInserts, hod] at ht
      rcases List.mem_cons.mp ht with h | h
      · simp [h, stepTsOK]
      · exact ih (cur + 1) (k + 1) t h

lemma tsOK_planSteps (g now base : Nat) :
    ∀ (data : List StepIn) (idx : Nat), ∀ t ∈ planSteps g now base data idx, stepTsOK t := by
  intro data
  induction data with
  | nil => intro idx t ht; simp [planSteps] at ht
  | cons sd rest ih =>
    intro idx t ht
    simp only [planSteps] at ht
    rcases List.mem_cons.mp ht with h | h
    · simp [h, stepTsOK]
    · exact ih (idx + 1) t h

lemma tsOK_reorderGo (g : Nat) :
    ∀ (os : List OrderIn) (steps s : List Step), (∀ t ∈ steps, stepTsOK t) →
      reorderGo g steps os = .ok s → ∀ t ∈ s, stepTsOK t := by
  intro os
  induction os with
  | nil => intro steps s h he; simp [reorderGo] at he; subst he; exact h
  | cons e rest ih =>
    intro steps s h he
    simp only [reorderGo] at he
    rcases hf : steps.find? (fun t => t.id == e.id && t.goalId == g) with _ | w
    · rw [hf] at he; cases he
    · rw [hf] at he
      exact ih (setOrder steps e.id e.order) s (tsOK_map_setOrder h e.id e.order) he

lemma stepTsOK_applyBulk (u : StepUpd) (now : Nat) (t : Step) (h : stepTsOK t) :
    stepTsOK (applyBulk u now t) := by
  unfold applyBulk
  by_cases hc : t.id == u.id
  · simp only [hc, if_true]
    cases hb : u.isCompleted with
    | some b => cases b <;> simp [stepTsOK]
    | none => simpa [stepTsOK] using h
  · simpa [hc, stepTsOK] using h

lemma tsOK_bulkGo (g now : Nat) :
    ∀ (us : List StepUpd) (steps s : List Step), (∀ t ∈ steps, stepTsOK t) →
      bulkGo g now steps us = .ok s → ∀ t ∈ s, stepTsOK t := by
  intro us
  induction us with
  | nil => intro steps s h he; simp [bulkGo] at he; subst he; exact h
  | cons u rest ih =>
    intro steps s h he
    simp only [bulkGo] at he
    rcases hf : steps.find? (fun t => t.id == u.id && t.goalId == g) with _ | w
    · rw [hf] at he; cases he
    · rw [hf] at he
      refine ih (steps.map (applyBulk u now)) s ?_ he
      intro t ht
      rcases List.mem_map.mp ht with ⟨a, ha, rfl⟩
      exact stepTsOK_applyBulk u now a (h a ha)

lemma invCompleted_reach : ∀ {db : DB}, Reach db → InvCompleted db := by
  intro db h
  induction h with
  | empty => intro t ht; simp [emptyDB] at ht
  | viaCreateGoal db c u ti d s p dl m now nid _ ih =>
    intro t ht
    unfold createGoal at ht
    split at ht
    · exact ih t ht
    · split at ht
      · exact ih t ht
      · split at ht
        · exact ih t ht
        · exact ih t ht
  | viaUpdateGoal db i ti d s p dl _ ih =>
    intro t ht
    unfold updateGoal at ht
    split at ht
    · exact ih t ht
    · split at ht
      · exact ih t ht
      · split at ht
        · exact ih t ht
        · split at ht
          · exact ih t ht
          · exact ih t ht
  | viaDeleteGoal db i _ ih =>
    intro t ht
    exact ih t (List.mem_of_mem_filter ht)
  | viaCreateStep db g ti o now nid _ ih =>
    intro t ht
    unfold createStep at ht
    split at ht
    · exact ih t ht
    · split at ht
      · exact ih t ht
      · rcases List.mem_append.mp ht with h1 | h1
        · exact ih t h1
        · rcases List.mem_singleton.mp h1 with rfl
          simp [stepTsOK]
  | viaCreateSteps db g data now base _ ih =>
    intro t ht
    unfold createSteps at ht
    split at ht
    · rcases List.mem_append.mp ht with h1 | h1
      · exact ih t h1
      · exact tsOK_buildInserts g now base data _ 0 t h1
    · exact ih t ht
  | viaUpdateStep db i ti c now _ ih =>
    intro t ht
    unfold updateStep at ht
    split at ht
    · exact ih t ht
    · split at ht
      · exact ih t ht
      · rcases List.mem_map.mp ht with ⟨a, ha, rfl⟩
        by_cases hc : a.id == i
        · simp only [hc, if_true]
          cases hb : c with
          | some b => cases b <;> simp [stepTsOK]
          | none => simpa [stepTsOK] using ih a ha
        · simpa [hc, stepTsOK] using ih a ha
  | viaToggleStep db i now _ ih =>
    intro t ht
    unfold toggleStepCompletion at ht
    split at ht
    · exact ih t ht
    · rcases List.mem_map.mp ht with ⟨a, ha, rfl⟩
      by_cases hc : a.id == i
      · rename_i cur _
        simp only [hc, if_true]
        cases hb : cur.isCompleted <;> simp [stepTsOK]
      · simpa [hc, stepTsOK] using ih a ha
  | viaDeleteStep db i _ ih =>
    intro t ht
    unfold deleteStep at ht
    split at ht
    · exact ih t ht
    · refine tsOK_renumLoop ?_ t ht
      intro a ha
      exact ih a (List.mem_of_mem_filter ha)
  | viaCreateGoalWithSteps db c u ti d s p dl m data now gid base inj _ ih =>
    intro t ht
    unfold createGoalWithSteps at ht
    split at ht
    · exact ih t ht
    · rcases List.mem_append.mp ht with h1 | h1
      · exact ih t h1
      · exact tsOK_planSteps gid now base data 0 t h1
  | viaReorderSteps db g os _ ih =>
    intro t ht
    unfold reorderSteps at ht
    split at ht
    · rename_i s he
      exact tsOK_reorderGo g os db.steps s ih he t ht
    · exact ih t ht
  | viaBulkUpdateSteps db g us now _ ih =>
    intro t ht
    unfold bulkUpdateSteps at ht
    split at ht
    · rename_i s he
      exact tsOK_bulkGo g now us db.steps s ih he t ht
    · exact ih t ht

/-- C1: at every state reachable through the store operations, a step's
completedAt is non-null exactly when its isCompleted flag holds; a
successfully created step starts not completed with null completedAt; and
updateStep and toggleStepCompletion write isCompleted together with the
matching completedAt (current time when set, null when cleared) in the
same write. -/
theorem claim1_completedAt_invariant :
    (∀ db : DB, Reach db → InvCompleted db) ∧
    (∀ (db : DB) (g : Nat) (ti : String) (o : Option Int) (now nid : Nat) (s : Step),
      (createStep db g ti o now nid).1 = .ok s →
      s.isCompleted = false ∧ s.completedAt = none) ∧
    (∀ (db : DB) (i : Nat) (ti : Option String) (b : Bool) (now : Nat),
      (updateStep db i ti (some b) now).1 = .ok () →
      ∀ t ∈ (updateStep db i ti (some b) now).2.steps, t.id = i →
        t.isCompleted = b ∧ t.completedAt = (if b then some now else none)) ∧
    (∀ (db : DB) (i now : Nat),
      (toggleStepCompletion db i now).1 = .ok () →
      ∀ t ∈ (toggleStepCompletion db i now).2.steps, t.id = i →
        t.completedAt = (if t.isCompleted then some now else none)) := by
  refine ⟨fun db h => invCompleted_reach h, ?_, ?_, ?_⟩
  · intro db g ti o now nid s h
    unfold createStep at h
    split at h
    · cases h
    · split at h
      · cases h
      · cases h
        exact ⟨rfl, rfl⟩
  · intro db i ti b now h t ht hid
    rcases hfind : db.steps.find? (fun t => t.id == i) with _ | cur
    · simp only [updateStep, hfind] at h
      cases h
    · simp only [updateStep, hfind] at h ht
      by_cases hti : ti.isSome = true ∧ jsTrim ti.get! = ""
      · rw [if_pos hti] at h; cases h
      · rw [if_neg hti] at ht
        rcases List.mem_map.mp ht with ⟨a, _, rfl⟩
        by_cases hc : a.id == i
        · simp [hc]
        · rw [if_neg (by simpa using hc)] at hid ⊢
          exact absurd hid (by simpa using hc)
  · intro db i now h t ht hid
    rcases hfind : db.steps.find? (fun t => t.id == i) with _ | cur
    · simp only [toggleStepCompletion, hfind] at h
      cases h
    · simp only [toggleStepCompletion, hfind] at h ht
      rcases List.mem_map.mp ht with ⟨a, _, rfl⟩
      by_cases hc : a.id == i
      · simp [hc]
      · rw [if_neg (by simpa using hc)] at hid ⊢
        exact absurd hid (by simpa using hc)

/-- Witness for C1: the invariant holds at a concrete state built by a
goal creation, a step creation and a completion toggle. -/
theorem claim1_witness :
    InvCompleted
      (toggleStepCompletion
        ((createStep ((createGoal emptyDB 1 2 "G" none none none none none 10 1).2)
          1 "S" none 11 5).2) 5 12).2 :=
  claim1_completedAt_invariant.1 _
    (Reach.viaToggleStep _ 5 12
      (Reach.viaCreateStep _ 1 "S" none 11 5
        (Reach.viaCreateGoal emptyDB 1 2 "G" none none none none none 10 1 Reach.empty)))

lemma applyRen_of_notMem : ∀ {i : Nat} {rem : List Step} {t : Step},
    t.id ∉ rem.map Step.id → applyRen i rem t = t := by
  intro i rem
  induction rem generalizing i with
  | nil => intro t _; rfl
  | cons r rest ih =>
    intro t h
    rw [applyRen, if_neg, ih]
    · intro hm; exact h (by simp [hm])
    · intro hb
      exact h (by simp [show t.id = r.id from by simpa using hb])

lemma applyRen_id : ∀ (i : Nat) (rem : List Step) (t : Step),
    (applyRen i rem t).id = t.id := by
  intro i rem
  induction rem generalizing i with
  | nil => intro t; rfl
  | cons r rest ih =>
    intro t
    rw [applyRen]
    by_cases hc : t.id == r.id
    · rw [if_pos hc]
    · rw [if_neg hc]; exact ih (i + 1) t

lemma applyRen_goalId : ∀ (i : Nat) (rem : List Step) (t : Step),
    (applyRen i rem t).goalId = t.goalId := by
  intro i rem
  induction rem generalizing i with
  | nil => intro t; rfl
  | cons r rest ih =>
    intro t
    rw [applyRen]
    by_cases hc : t.id == r.id
    · rw [if_pos hc]
    · rw [if_neg hc]; exact ih (i + 1) t

/-- The renumber loop is the map of `applyRen` over the table, provided
the listed rows have pairwise distinct ids. -/
lemma renumLoop_eq_map : ∀ (rem : List Step) (i : Nat) (acc : List Step),
    (rem.map Step.id).Nodup → renumLoop i rem acc = acc.map (applyRen i rem) := by
  intro rem
  induction rem with
  | nil =>
    intro i acc _
    show acc = acc.map (applyRen i [])
    have : applyRen i [] = id := funext fun t => rfl
    rw [this, List.map_id]
  | cons r rest ih =>
    intro i acc hnd
    have hr : r.id ∉ rest.map Step.id := (List.nodup_cons.mp hnd).1
    have hnd' : (rest.map Step.id).Nodup := (List.nodup_cons.mp hnd).2
    show renumLoop (i + 1) rest (setOrder acc r.id (Int.ofNat i)) = _
    rw [ih (i + 1) _ hnd', setOrder, List.map_map]
    have hfun :
        (applyRen (i + 1) rest) ∘
            (fun t => if t.id == r.id then { t with order := Int.ofNat i } else t)
          = applyRen i (r :: rest) := by
      funext t
      by_cases hc : t.id == r.id
      · simp only [Function.comp_apply, if_pos hc]
        rw [applyRen, if_pos hc, applyRen_of_notMem]
        show ¬ t.id ∈ _
        rw [show t.id = r.id from by simpa using hc]
        exact hr
      · simp only [Function.comp_apply, if_neg hc]
        rw [applyRen, if_neg hc]
    rw [hfun]

lemma map_applyRen_self : ∀ (l : List Step) (i : Nat), (l.map Step.id).Nodup →
    l.map (applyRen i l) = withOrders i l := by
  intro l
  induction l with
  | nil => intro i _; rfl
  | cons r rest ih =>
    intro i hnd
    have hr : r.id ∉ rest.map Step.id := (List.nodup_cons.mp hnd).1
    have hnd' : (rest.map Step.id).Nodup := (List.nodup_cons.mp hnd).2
    show applyRen i (r :: rest) r :: rest.map (applyRen i (r :: rest)) = _
    rw [withOrders]
    have hhead : applyRen i (r :: rest) r = { r with order := Int.ofNat i } := by
      rw [applyRen, if_pos (by simp)]
    have htail : rest.map (applyRen i (r :: rest)) = withOrders (i + 1) rest := by
      rw [List.map_congr_left, ih (i + 1) hnd']
      intro t ht
      rw [applyRen, if_neg]
      intro hb
      exact hr (by
        rw [show r.id = t.id from by simpa using (by simpa using hb : t.id = r.id).symm]
        exact List.mem_map.mpr ⟨t, ht, rfl⟩)
    rw [hhead, htail]

lemma mem_withOrders : ∀ {l : List Step} {i : Nat} {t : Step}, t ∈ withOrders i l →
    ∃ j : Fin l.length, t = { l.get j with order := Int.ofNat (i + j.1) } := by
  intro l
  induction l with
  | nil => intro i t ht; cases ht
  | cons r rest ih =>
    intro i t ht
    rw [withOrders] at ht
    rcases List.mem_cons.mp ht with h | h
    · exact ⟨⟨0, by simp⟩, by simpa using h⟩
    · rcases ih h with ⟨j, hj⟩
      refine ⟨⟨j.1 + 1, by simp [Nat.succ_lt_succ j.2]⟩, ?_⟩
      rw [show i + (j.1 + 1) = (i + 1) + j.1 from by omega, List.get_cons_succ]
      exact hj

lemma map_order_withOrders : ∀ (l : List Step) (i : Nat),
    (withOrders i l).map Step.order
      = (List.range l.length).map (fun j => Int.ofNat (i + j)) := by
  intro l
  induction l with
  | nil => intro i; rfl
  | cons r rest ih =>
    intro i
    rw [withOrders, List.map_cons, List.length_cons, List.range_succ_eq_map,
      List.map_cons, List.map_map, ih (i + 1)]
    refine congrArg₂ List.cons (by simp) ?_
    refine congrArg (fun f => List.map f (List.range rest.length)) ?_
    funext j
    exact congrArg Int.ofNat (by omega)

lemma map_id_withOrders : ∀ (l : List Step) (i : Nat),
    (withOrders i l).map Step.id = l.map Step.id := by
  intro l
  induction l with
  | nil => intro i; rfl
  | cons r rest ih =>
    intro i
    rw [withOrders, List.map_cons, List.map_cons, ih (i + 1)]

lemma length_withOrders (l : List Step) (i : Nat) :
    (withOrders i l).length = l.length := by
  have := congrArg List.length (map_id_withOrders l i)
  simpa using this

lemma filter_map_goalId (f : Step → Step) (hf : ∀ t, (f t).goalId = t.goalId)
    (g : Nat) : ∀ l : List Step,
      (l.map f).filter (fun t => t.goalId == g)
        = (l.filter (fun t => t.goalId == g)).map f := by
  intro l
  induction l with
  | nil => rfl
  | cons a rest ih =>
    simp only [List.map_cons, List.filter_cons, hf]
    by_cases hc : (a.goalId == g) = true
    · simp [hc, ih]
    · simp [hc, ih]

lemma filter_comm_steps (l : List Step) (sid g : Nat) :
    (l.filter (fun t => !(t.id == sid))).filter (fun t => t.goalId == g)
      = (l.filter (fun t => t.goalId == g)).filter (fun t => !(t.id == sid)) := by
  rw [List.filter_filter, List.filter_filter]
  exact List.filter_congr fun a _ => Bool.and_comm _ _

lemma length_filter_out : ∀ {l : List Step}, (l.map Step.id).Nodup →
    ∀ {s : Step}, s ∈ l → ∀ {sid : Nat}, s.id = sid →
      (l.filter (fun t => !(t.id == sid))).length + 1 = l.length := by
  intro l
  induction l with
  | nil => intro _ s hs; cases hs
  | cons a rest ih =>
    intro hnd s hs sid hid
    have hr : a.id ∉ rest.map Step.id := (List.nodup_cons.mp hnd).1
    have hnd' : (rest.map Step.id).Nodup := (List.nodup_cons.mp hnd).2
    rcases List.mem_cons.mp hs with rfl | hmem
    · have ha : (!(s.id == sid)) = false := by simp [hid]
      rw [List.filter_cons, ha]
      simp only [Bool.false_eq_true, if_false, List.length_cons, Nat.add_right_cancel_iff]
      have : rest.filter (fun t => !(t.id == sid)) = rest := by
        rw [List.filter_eq_self]
        intro t ht
        have hne : t.id ≠ sid := by
          intro he
          exact hr (by rw [hid, ← he]; exact List.mem_map.mpr ⟨t, ht, rfl⟩)
        simp [hne]
      rw [this]
    · have hane : a.id ≠ sid := by
        intro he
        exact hr (by rw [he, ← hid]; exact List.mem_map.mpr ⟨s, hmem, rfl⟩)
      rw [List.filter_cons, if_pos (by simp [hane])]
      rw [List.length_cons, List.length_cons]
      rw [Nat.succ_add]
      exact congrArg Nat.succ (ih hnd' hmem hid)

/-- C2: with pairwise distinct step ids, after deleteStep of an existing
step the remaining steps of its goal carry the order values 0..n-1
exactly (as a multiset of orders), their count is one less than before,
their ids are exactly the other steps of the goal, and smaller new orders
go to steps whose pre-deletion orders were no larger — all independent of
any duplicate order values present before the deletion.  The whole
operation is a single transition of the state, matching the single
transaction of the source. -/
theorem claim2_deleteStep_renumbers (db : DB) (sid : Nat)
    (hnd : (db.steps.map Step.id).Nodup)
    (s : Step) (hf : db.steps.find? (fun t => t.id == sid) = some s) :
    List.Perm ((stepsOfGoal (deleteStep db sid).2 s.goalId).map Step.order)
        ((List.range (stepsOfGoal (deleteStep db sid).2 s.goalId).length).map Int.ofNat) ∧
    (stepsOfGoal (deleteStep db sid).2 s.goalId).length + 1
        = (stepsOfGoal db s.goalId).length ∧
    List.Perm ((stepsOfGoal (deleteStep db sid).2 s.goalId).map Step.id)
        (((stepsOfGoal db s.goalId).filter (fun t => !(t.id == sid))).map Step.id) ∧
    (∀ p ∈ stepsOfGoal (deleteStep db sid).2 s.goalId,
     ∀ q ∈ stepsOfGoal (deleteStep db sid).2 s.goalId, p.order < q.order →
     ∀ p₀ ∈ db.steps, ∀ q₀ ∈ db.steps, p₀.id = p.id → q₀.id = q.id →
       p₀.order ≤ q₀.order) := by
  have hsid : s.id = sid := by simpa using List.find?_some hf
  have hsmem : s ∈ db.steps := List.mem_of_find?_eq_some hf
  set g := s.goalId with hg
  set afterDelete := db.steps.filter (fun t => !(t.id == sid)) with hAD
  set G := afterDelete.filter (fun t => t.goalId == g) with hGdef
  set sorted := G.insertionSort byOrder with hsorted
  have hndAD : (afterDelete.map Step.id).Nodup :=
    List.Nodup.sublist ((List.filter_sublist _).map Step.id) hnd
  have hndG : (G.map Step.id).Nodup :=
    List.Nodup.sublist ((List.filter_sublist _).map Step.id) hndAD
  have hperm : List.Perm sorted G := List.perm_insertionSort byOrder G
  have hndS : (sorted.map Step.id).Nodup :=
    ((hperm.map Step.id).nodup_iff).mpr hndG
  have hdb' : (deleteStep db sid).2.steps = afterDelete.map (applyRen 0 sorted) := by
    simp only [deleteStep, hf]
    exact renumLoop_eq_map sorted 0 afterDelete hndS
  have hpost : stepsOfGoal (deleteStep db sid).2 g = G.map (applyRen 0 sorted) := by
    rw [stepsOfGoal, hdb',
      filter_map_goalId (applyRen 0 sorted) (applyRen_goalId 0 sorted) g afterDelete]
  have hpostPerm :
      List.Perm (stepsOfGoal (deleteStep db sid).2 g) (withOrders 0 sorted) := by
    rw [hpost, ← map_applyRen_self sorted 0 hndS]
    exact hperm.symm.map (applyRen 0 sorted)
  have hGalt : G = (stepsOfGoal db g).filter (fun t => !(t.id == sid)) := by
    rw [hGdef, hAD, stepsOfGoal, filter_comm_steps]
  have hsG : s ∈ stepsOfGoal db g := by
    rw [stepsOfGoal]
    exact List.mem_filter.mpr ⟨hsmem, by simp [hg]⟩
  have hndSG : ((stepsOfGoal db g).map Step.id).Nodup :=
    List.Nodup.sublist ((List.filter_sublist _).map Step.id) hnd
  have hlen1 : (stepsOfGoal (deleteStep db sid).2 g).length = sorted.length := by
    rw [hpostPerm.length_eq, length_withOrders]
  refine ⟨?_, ?_, ?_, ?_⟩
  · have h1 := hpostPerm.map Step.order
    rw [map_order_withOrders] at h1
    have h2 : (List.range sorted.length).map (fun j => Int.ofNat (0 + j))
        = (List.range sorted.length).map Int.ofNat := by
      refine congrArg (fun f => List.map f (List.range sorted.length)) ?_
      funext j
      simp
    rw [h2] at h1
    rw [hlen1]
    exact h1
  · rw [hlen1, hperm.length_eq, hGalt]
    exact length_filter_out hndSG hsG hsid
  · have h1 := hpostPerm.map Step.id
    rw [map_id_withOrders] at h1
    refine h1.trans ?_
    rw [← hGalt]
    exact hperm.map Step.id
  · intro p hp q hq hlt p₀ hp₀ q₀ hq₀ hpid hqid
    have hp' := (hpostPerm.mem_iff).mp hp
    have hq' := (hpostPerm.mem_iff).mp hq
    rcases mem_withOrders hp' with ⟨jp, hjp⟩
    rcases mem_withOrders hq' with ⟨jq, hjq⟩
    have hordp : p.order = Int.ofNat jp.1 := by rw [hjp]; simp
    have hordq : q.order = Int.ofNat jq.1 := by rw [hjq]; simp
    have hjj : jp.1 < jq.1 := by
      have := hlt
      rw [hordp, hordq] at this
      exact Int.ofNat_lt.mp this
    have hsortedS : List.Sorted byOrder sorted := List.sorted_insertionSort byOrder G
    have hle : byOrder (sorted.get jp) (sorted.get jq) :=
      (List.pairwise_iff_get.mp hsortedS) jp jq hjj
    have hmem_of_get : ∀ j : Fin sorted.length, sorted.get j ∈ db.steps := by
      intro j
      have h1 : sorted.get j ∈ sorted := List.get_mem sorted j.1 j.2
      have h2 : sorted.get j ∈ G := (hperm.mem_iff).mp h1
      have h3 : sorted.get j ∈ afterDelete := List.mem_of_mem_filter h2
      exact List.mem_of_mem_filter h3
    have hpid' : p.id = (sorted.get jp).id := by rw [hjp]
    have hqid' : q.id = (sorted.get jq).id := by rw [hjq]
    have hp0eq : p₀ = sorted.get jp :=
      List.inj_on_of_nodup_map hnd hp₀ (hmem_of_get jp) (by rw [hpid, hpid'])
    have hq0eq : q₀ = sorted.get jq :=
      List.inj_on_of_nodup_map hnd hq₀ (hmem_of_get jq) (by rw [hqid, hqid'])
    rw [hp0eq, hq0eq]
    exact hle

/-! ## Extractor claims -/

/-- C3: on the guitar example, the part_003 variant of extractPlanFromText
returns the goal title Learn guitar, no description, and exactly the two
steps Buy a guitar and Practice daily in that order. -/
theorem claim3_extract_guitar_example :
    Part003.extractPlanFromText
        "Goal: Learn guitar\nSteps:\n1. Buy a guitar\n2. Practice daily"
      = { goalTitle := "Learn guitar", description := none,
          steps := [⟨"Buy a guitar"⟩, ⟨"Practice daily"⟩] } := by
  decide

lemma steps4_none_of_label_none : ∀ {cs : List Char},
    searchA stepsLabelHit cs = none → searchA steps4MatchAt cs = none := by
  intro cs
  induction cs with
  | nil =>
    intro _
    decide
  | cons c rest ih =>
    intro h
    rw [searchA] at h
    cases hh : stepsLabelHit (c :: rest) with
    | some u => rw [hh] at h; cases h
    | none =>
      rw [hh] at h
      have htail : searchA stepsLabelHit rest = none := h
      rw [searchA]
      have hcand : stepsLabelCandidatesAt (c :: rest) = [] := by
        unfold stepsLabelHit at hh
        cases hc : stepsLabelCandidatesAt (c :: rest) with
        | nil => rfl
        | cons a l => rw [hc] at hh; cases hh
      have hhead : steps4MatchAt (c :: rest) = none := by
        unfold steps4MatchAt
        rw [hcand]
        rfl
      rw [hhead, ih htail]
      rfl

lemma pipeline_filterMap : ∀ L : List (List Char),
    ((((L.map jsTrimChars).filter itemTest).map linePayload).filter
        (fun t => !t.isEmpty)).map String.mk
      = L.filterMap listLineTitle := by
  intro L
  induction L with
  | nil => rfl
  | cons l rest ih =>
    cases ht : itemTest (jsTrimChars l) with
    | false =>
      have hl : listLineTitle l = none := by simp [listLineTitle, ht]
      simp [List.filter_cons, List.filterMap_cons, ht, hl, ih]
    | true =>
      cases he : (linePayload (jsTrimChars l)).isEmpty with
      | true =>
        have hl : listLineTitle l = none := by simp [listLineTitle, ht, he]
        simp [List.filter_cons, List.filterMap_cons, ht, he, hl, ih]
      | false =>
        have hl : listLineTitle l
            = some (String.mk (linePayload (jsTrimChars l))) := by
          simp [listLineTitle, ht, he]
        simp [List.filter_cons, List.filterMap_cons, ht, he, hl, ih]

/-- C4: whenever the text contains no steps label followed by a newline,
the part_004 variant of extractPlanFromText treats the entire text as the
candidate block: its steps are exactly the trimmed payloads of the lines
matching the numbered or bulleted list pattern, in source order (with the
default step substituted when there are none).  This variant applies no
goal-title or description duplicate filter, so every such line appears; in
particular every line that would additionally survive those filters
appears. -/
theorem claim4_fallback_block (text : String) (h : hasStepsLabel text = false) :
    (Part004.extractPlanFromText text).steps.map PlanStep.title
      = (if listItemTitles text = [] then [defaultStepTitle]
         else listItemTitles text) := by
  have hnone : searchA stepsLabelHit text.toList = none := by
    unfold hasStepsLabel at h
    cases hs : searchA stepsLabelHit text.toList with
    | none => rfl
    | some u => rw [hs] at h; cases h
  have h4 : searchA steps4MatchAt text.toList = none := steps4_none_of_label_none hnone
  have hlab : Part004.labeledTitles text = [] := by
    unfold Part004.labeledTitles
    rw [h4]
  have hfmap : (Part004.fallbackItems text.toList).map String.mk = listItemTitles text := by
    unfold Part004.fallbackItems listItemTitles
    exact pipeline_filterMap (splitNl text.toList)
  show (Part004.extractPlanFromText text).steps.map PlanStep.title = _
  unfold Part004.extractPlanFromText
  rw [hlab]
  simp only [List.isEmpty_nil, if_true]
  cases hfb : Part004.fallbackItems text.toList with
  | nil =>
    have hrhs : listItemTitles text = [] := by rw [← hfmap, hfb]; rfl
    simp [hrhs]
  | cons a l =>
    have hne : listItemTitles text ≠ [] := by
      rw [← hfmap, hfb]
      simp
    rw [if_neg hne]
    rw [← hfmap, hfb]
    simp [List.map_map, Function.comp]

/-- Witness for C4 at a concrete label-free text with one numbered line. -/
theorem claim4_witness :
    hasStepsLabel "1. Buy milk" = false ∧
    (Part004.extractPlanFromText "1. Buy milk").steps.map PlanStep.title
      = (if listItemTitles "1. Buy milk" = [] then [defaultStepTitle]
         else listItemTitles "1. Buy milk") :=
  ⟨by decide, claim4_fallback_block "1. Buy milk" (by decide)⟩

/-- C8: both extractor variants are total by construction and never
produce an empty step list; whenever nothing survives the extraction, the
single default step is substituted; and on an unstructured input both
return the default plan with the default goal title. -/
theorem claim8_extract_total_default :
    (Part003.extractPlanFromText "random text with no structure"
      = { goalTitle := "New Goal", description := none,
          steps := [⟨defaultStepTitle⟩] }) ∧
    (Part004.extractPlanFromText "random text with no structure"
      = { goalTitle := "New Goal", description := none,
          steps := [⟨defaultStepTitle⟩] }) ∧
    (∀ t : String, (Part003.extractPlanFromText t).steps ≠ []) ∧
    (∀ t : String, (Part004.extractPlanFromText t).steps ≠ []) ∧
    (∀ t : String, Part003.survivors t = [] →
      (Part003.extractPlanFromText t).steps = [⟨defaultStepTitle⟩]) ∧
    (∀ t : String, Part004.labeledTitles t = [] →
      Part004.fallbackItems t.toList = [] →
      (Part004.extractPlanFromText t).steps = [⟨defaultStepTitle⟩]) := by
  refine ⟨by decide, by decide, ?_, ?_, ?_, ?_⟩
  · intro t
    unfold Part003.extractPlanFromText
    cases hs : Part003.survivors t with
    | nil => simp
    | cons a l => simp
  · intro t
    unfold Part004.extractPlanFromText
    cases hs : Part004.labeledTitles t with
    | nil =>
      cases hf : Part004.fallbackItems t.data with
      | nil => simp [hs, hf]
      | cons a l => simp [hs, hf]
    | cons a l => simp [hs]
  · intro t hs
    unfold Part003.extractPlanFromText
    rw [hs]
    rfl
  · intro t hs hf
    have hf' : Part004.fallbackItems t.data = [] := hf
    unfold Part004.extractPlanFromText
    rw [hs]
    simp [hf']

/-- Witness for C8: the defaulting conjunct applied at a concrete text
with no surviving step line. -/
theorem claim8_witness :
    Part003.survivors "zzz" = [] ∧
    (Part003.extractPlanFromText "zzz").steps = [⟨defaultStepTitle⟩] :=
  ⟨by decide, claim8_extract_total_default.2.2.2.2.1 "zzz" (by decide)⟩

/-- Witness for C2 at a concrete database with duplicate orders. -/
theorem claim2_witness :
    List.Perm ((stepsOfGoal (deleteStep dbW 1).2 1).map Step.order)
        ((List.range (stepsOfGoal (deleteStep dbW 1).2 1).length).map Int.ofNat) ∧
    (stepsOfGoal (deleteStep dbW 1).2 1).length + 1 = (stepsOfGoal dbW 1).length ∧
    List.Perm ((stepsOfGoal (deleteStep dbW 1).2 1).map Step.id)
        (((stepsOfGoal dbW 1).filter (fun t => !(t.id == 1))).map Step.id) ∧
    (∀ p ∈ stepsOfGoal (deleteStep dbW 1).2 1,
     ∀ q ∈ stepsOfGoal (deleteStep dbW 1).2 1, p.order < q.order →
     ∀ p₀ ∈ dbW.steps, ∀ q₀ ∈ dbW.steps, p₀.id = p.id → q₀.id = q.id →
       p₀.order ≤ q₀.order) :=
  claim2_deleteStep_renumbers dbW 1 (by decide)
    ⟨1, 1, "a", false, 0, none, 0⟩ (by decide)

/-! ## Bulk step creation (C5) -/

lemma buildInserts_titles (g now base : Nat) :
    ∀ (data : List StepIn) (cur : Int) (k : Nat),
      (buildInserts g now base data cur k).map Step.title = data.map StepIn.title := by
  intro data
  induction data with
  | nil => intro cur k; rfl
  | cons sd rest ih =>
    intro cur k
    cases hod : sd.order with
    | some o => simp only [buildInserts, hod, List.map_cons, ih]
    | none => simp only [buildInserts, hod, List.map_cons, ih]

/-- Counterexample for C5: createSteps with a whitespace-only step title
succeeds and inserts the step verbatim — there is no validation error and
the insert happens. -/
theorem claim5_counterexample :
    (createSteps dbOneGoal 1 [⟨" ", none⟩] 7 10).1
        = .ok [⟨10, 1, " ", false, 0, none, 7⟩] ∧
    (createSteps dbOneGoal 1 [⟨" ", none⟩] 7 10).2.steps.map Step.title = [" "] :=
  ⟨rfl, rfl⟩

/-- C5 (amended): createSteps performs no validation of its own — a
nonexistent parent goal surfaces only as the storage-layer foreign-key
failure wrapped as a database error (not a not-found error), with nothing
inserted, while whitespace-only titles are accepted and inserted verbatim;
the validations the claim describes exist only in the single createStep,
which rejects a blank title and a missing goal before writing. -/
theorem claim5_createSteps_no_validation :
    (∀ (db : DB) (g : Nat) (data : List StepIn) (now base : Nat),
      getGoalById db g = none →
      createSteps db g data now base
        = (.error ⟨.badRequestDatabase, "Failed to create steps"⟩, db)) ∧
    (∀ (db : DB) (g : Nat) (data : List StepIn) (now base : Nat),
      (getGoalById db g).isSome →
      (createSteps db g data now base).1
          = .ok (buildInserts g now base data (maxOrder (stepsOfGoal db g) + 1) 0) ∧
      (createSteps db g data now base).2.steps
          = db.steps ++ buildInserts g now base data (maxOrder (stepsOfGoal db g) + 1) 0 ∧
      (buildInserts g now base data (maxOrder (stepsOfGoal db g) + 1) 0).map Step.title
          = data.map StepIn.title) ∧
    (∀ (db : DB) (g : Nat) (ti : String) (o : Option Int) (now nid : Nat),
      jsTrim ti = "" →
      createStep db g ti o now nid
        = (.error ⟨.badRequestGoal, "Step title cannot be empty"⟩, db)) ∧
    (∀ (db : DB) (g : Nat) (ti : String) (o : Option Int) (now nid : Nat),
      jsTrim ti ≠ "" → getGoalById db g = none →
      createStep db g ti o now nid
        = (.error ⟨.notFoundGoal, "Goal not found"⟩, db)) := by
  refine ⟨?_, ?_, ?_, ?_⟩
  · intro db g data now base h
    unfold createSteps
    rw [h]
    rfl
  · intro db g data now base h
    refine ⟨?_, ?_, buildInserts_titles g now base data _ 0⟩
    · unfold createSteps
      rw [if_pos h]
    · unfold createSteps
      rw [if_pos h]
  · intro db g ti o now nid h
    unfold createStep
    rw [if_pos h]
  · intro db g ti o now nid hti h
    unfold createStep
    rw [if_neg hti, h]

/-- Witness for C5's amended statement at concrete inputs. -/
theorem claim5_witness :
    createSteps emptyDB 1 [⟨"x", none⟩] 0 0
        = (.error ⟨.badRequestDatabase, "Failed to create steps"⟩, emptyDB) ∧
    createStep dbOneGoal 1 "  " none 0 0
        = (.error ⟨.badRequestGoal, "Step title cannot be empty"⟩, dbOneGoal) ∧
    createStep dbOneGoal 9 "t" none 0 0
        = (.error ⟨.notFoundGoal, "Goal not found"⟩, dbOneGoal) :=
  ⟨claim5_createSteps_no_validation.1 emptyDB 1 [⟨"x", none⟩] 0 0 (by decide),
   claim5_createSteps_no_validation.2.2.1 dbOneGoal 1 "  " none 0 0 (by decide),
   claim5_createSteps_no_validation.2.2.2 dbOneGoal 9 "t" none 0 0 (by decide) (by decide)⟩

lemma goals_createStep (db : DB) (g : Nat) (ti : String) (o : Option Int)
    (now nid : Nat) : (createStep db g ti o now nid).2.goals = db.goals := by
  unfold createStep
  split
  · rfl
  · split <;> rfl

lemma goals_createSteps (db : DB) (g : Nat) (data : List StepIn) (now base : Nat) :
    (createSteps db g data now base).2.goals = db.goals := by
  unfold createSteps
  split <;> rfl

lemma goals_updateStep (db : DB) (i : Nat) (ti : Option String)
    (c : Option Bool) (now : Nat) : (updateStep db i ti c now).2.goals = db.goals := by
  unfold updateStep
  split
  · rfl
  · split <;> rfl

lemma goals_toggleStep (db : DB) (i now : Nat) :
    (toggleStepCompletion db i now).2.goals = db.goals := by
  unfold toggleStepCompletion
  split <;> rfl

lemma goals_deleteStep (db : DB) (i : Nat) :
    (deleteStep db i).2.goals = db.goals := by
  unfold deleteStep
  split <;> rfl

lemma goals_reorderSteps (db : DB) (g : Nat) (os : List OrderIn) :
    (reorderSteps db g os).2.goals = db.goals := by
  unfold reorderSteps
  split <;> rfl

lemma goals_bulkUpdateSteps (db : DB) (g : Nat) (us : List StepUpd) (now : Nat) :
    (bulkUpdateSteps db g us now).2.goals = db.goals := by
  unfold bulkUpdateSteps
  split <;> rfl

lemma goalTitlesOK_reachStores : ∀ {db : DB}, ReachStores db → GoalTitlesOK db := by
  intro db h
  induction h with
  | empty => intro g hg; cases hg
  | viaCreateGoal db c u ti d s p dl m now nid _ ih =>
    intro g hg
    by_cases hti : jsTrim ti = ""
    · have he : (createGoal db c u ti d s p dl m now nid).2 = db := by
        unfold createGoal
        rw [if_pos hti]
      rw [he] at hg
      exact ih g hg
    · unfold createGoal at hg
      rw [if_neg hti] at hg
      split at hg
      · exact ih g hg
      · split at hg
        · exact ih g hg
        · rcases List.mem_append.mp hg with h1 | h1
          · exact ih g h1
          · rcases List.mem_singleton.mp h1 with rfl
            exact hti
  | viaUpdateGoal db i ti d s p dl _ ih =>
    intro g hg
    unfold updateGoal at hg
    split at hg
    · exact ih g hg
    · by_cases hti : ti.isSome = true ∧ jsTrim ti.get! = ""
      · rw [if_pos hti] at hg
        exact ih g hg
      · rw [if_neg hti] at hg
        split at hg
        · exact ih g hg
        · split at hg
          · exact ih g hg
          · rcases List.mem_map.mp hg with ⟨a, ha, rfl⟩
            show jsTrim (if a.id == i then _ else a).title ≠ ""
            by_cases hc : a.id == i
            · rw [if_pos hc]
              cases ti with
              | none => exact ih a ha
              | some t0 =>
                intro hb
                exact hti ⟨rfl, hb⟩
            · rw [if_neg hc]
              exact ih a ha
  | viaDeleteGoal db i _ ih =>
    intro g hg
    exact ih g (List.mem_of_mem_filter hg)
  | viaCreateStep db g0 ti o now nid _ ih =>
    intro g hg
    rw [goals_createStep] at hg
    exact ih g hg
  | viaCreateSteps db g0 data now base _ ih =>
    intro g hg
    rw [goals_createSteps] at hg
    exact ih g hg
  | viaUpdateStep db i ti c now _ ih =>
    intro g hg
    rw [goals_updateStep] at hg
    exact ih g hg
  | viaToggleStep db i now _ ih =>
    intro g hg
    rw [goals_toggleStep] at hg
    exact ih g hg
  | viaDeleteStep db i _ ih =>
    intro g hg
    rw [goals_deleteStep] at hg
    exact ih g hg
  | viaReorderSteps db g0 os _ ih =>
    intro g hg
    rw [goals_reorderSteps] at hg
    exact ih g hg
  | viaBulkUpdateSteps db g0 us now _ ih =>
    intro g hg
    rw [goals_bulkUpdateSteps] at hg
    exact ih g hg

/-- C6: a createGoal call with a blank (empty or whitespace-only) title
returns the validation error and leaves the database unchanged; an
updateGoal call on an existing goal supplying a blank title does the same;
consequently, across every state reachable through the store operations,
no persisted goal has a blank title. -/
theorem claim6_blank_title_rejected :
    (∀ (db : DB) (c u : Nat) (ti : String) (d : Option String)
       (s p : Option String) (dl : Option Nat) (m : Option Nat) (now nid : Nat),
      jsTrim ti = "" →
      createGoal db c u ti d s p dl m now nid
        = (.error ⟨.badRequestGoal, "Title cannot be empty"⟩, db)) ∧
    (∀ (db : DB) (i : Nat) (ti : String) (d : Option (Option String))
       (s p : Option String) (dl : Option (Option Nat)),
      jsTrim ti = "" → (getGoalById db i).isSome →
      updateGoal db i (some ti) d s p dl
        = (.error ⟨.badRequestGoal, "Title cannot be empty"⟩, db)) ∧
    (∀ db : DB, ReachStores db → GoalTitlesOK db) := by
  refine ⟨?_, ?_, fun db h => goalTitlesOK_reachStores h⟩
  · intro db c u ti d s p dl m now nid h
    unfold createGoal
    rw [if_pos h]
  · intro db i ti d s p dl h hs
    rcases Option.isSome_iff_exists.mp hs with ⟨g0, hg⟩
    unfold updateGoal
    rw [hg]
    rw [if_pos ⟨rfl, h⟩]

/-- Witness for C6: blank titles rejected at concrete inputs, and the
title invariant at a concrete reachable state. -/
theorem claim6_witness :
    createGoal dbOneGoal 1 2 " " none none none none none 0 5
        = (.error ⟨.badRequestGoal, "Title cannot be empty"⟩, dbOneGoal) ∧
    updateGoal dbOneGoal 1 (some "\t") none none none none
        = (.error ⟨.badRequestGoal, "Title cannot be empty"⟩, dbOneGoal) ∧
    GoalTitlesOK (createGoal emptyDB 1 2 "Run" none none none none none 0 1).2 :=
  ⟨claim6_blank_title_rejected.1 dbOneGoal 1 2 " " none none none none none 0 5 rfl,
   claim6_blank_title_rejected.2.1 dbOneGoal 1 "\t" none none none none rfl (by decide),
   claim6_blank_title_rejected.2.2 _
     (ReachStores.viaCreateGoal emptyDB 1 2 "Run" none none none none none 0 1
       ReachStores.empty)⟩

/-! ## Transactional goal-with-steps creation (C7) -/

lemma planSteps_length (g now base : Nat) :
    ∀ (data : List StepIn) (idx : Nat),
      (planSteps g now base data idx).length = data.length := by
  intro data
  induction data with
  | nil => intro idx; rfl
  | cons sd rest ih =>
    intro idx
    simp only [planSteps, List.length_cons, ih]

lemma planSteps_getq (g now base : Nat) :
    ∀ (data : List StepIn) (idx k : Nat) (h : k < data.length),
      (planSteps g now base data idx).get? k
        = some { id := base + (idx + k), goalId := g,
                 title := (data.get ⟨k, h⟩).title, isCompleted := false,
                 order := ((data.get ⟨k, h⟩).order).getD (Int.ofNat (idx + k)),
                 completedAt := none, createdAt := now } := by
  intro data
  induction data with
  | nil => intro idx k h; cases h
  | cons sd rest ih =>
    intro idx k h
    cases k with
    | zero => simp [planSteps]
    | succ k' =>
      have h' : k' < rest.length := Nat.lt_of_succ_lt_succ h
      show (planSteps g now base rest (idx + 1)).get? k' = _
      rw [ih (idx + 1) k' h']
      have harith : (idx + 1) + k' = idx + (k' + 1) := by omega
      rw [harith]
      rfl

/-- C7: createGoalWithSteps is all-or-nothing.  An injected failure inside
the transaction leaves the database untouched and surfaces as the single
wrapped database error carrying the original message; without a failure
the goal and every supplied step are appended, and the k-th created step
carries the k-th supplied title with order equal to the explicit order
when supplied and otherwise k. -/
theorem claim7_createGoalWithSteps_atomic :
    (∀ (db : DB) (c u : Nat) (ti : String) (d : Option String)
       (s p : Option String) (dl m : Option Nat) (data : List StepIn)
       (now gid base : Nat) (msg : String),
      createGoalWithSteps db c u ti d s p dl m data now gid base (some msg)
        = (.error ⟨.badRequestDatabase,
            "Failed to create goal with steps: " ++ msg⟩, db)) ∧
    (∀ (db : DB) (c u : Nat) (ti : String) (d : Option String)
       (s p : Option String) (dl m : Option Nat) (data : List StepIn)
       (now gid base : Nat),
      (createGoalWithSteps db c u ti d s p dl m data now gid base none).1
          = .ok (⟨gid, c, u, m, ti, d, s.getD "not_started", p.getD "medium", dl, now⟩,
                 planSteps gid now base data 0) ∧
      (createGoalWithSteps db c u ti d s p dl m data now gid base none).2.goals
          = db.goals
            ++ [⟨gid, c, u, m, ti, d, s.getD "not_started", p.getD "medium", dl, now⟩] ∧
      (createGoalWithSteps db c u ti d s p dl m data now gid base none).2.steps
          = db.steps ++ planSteps gid now base data 0 ∧
      (planSteps gid now base data 0).length = data.length ∧
      (∀ (k : Nat) (h : k < data.length),
        (planSteps gid now base data 0).get? k
          = some { id := base + k, goalId := gid,
                   title := (data.get ⟨k, h⟩).title, isCompleted := false,
                   order := ((data.get ⟨k, h⟩).order).getD (Int.ofNat k),
                   completedAt := none, createdAt := now })) := by
  refine ⟨?_, ?_⟩
  · intro db c u ti d s p dl m data now gid base msg
    rfl
  · intro db c u ti d s p dl m data now gid base
    refine ⟨rfl, rfl, rfl, planSteps_length gid now base data 0, ?_⟩
    intro k h
    have := planSteps_getq gid now base data 0 k h
    simpa using this

/-- Witness for C7: a failing transaction at a concrete input persists
nothing, and a successful one assigns the explicit order 5 to the second
step. -/
theorem claim7_witness :
    createGoalWithSteps emptyDB 1 2 "G" none none none none none
        [⟨"a", none⟩] 0 1 10 (some "boom")
      = (.error ⟨.badRequestDatabase,
          "Failed to create goal with steps: boom"⟩, emptyDB) ∧
    (planSteps 1 0 10 [⟨"a", none⟩, ⟨"b", some 5⟩] 0).get? 1
      = some ⟨11, 1, "b", false, 5, none, 0⟩ :=
  ⟨claim7_createGoalWithSteps_atomic.1 emptyDB 1 2 "G" none none none none none
      [⟨"a", none⟩] 0 1 10 "boom",
   by
    have := (claim7_createGoalWithSteps_atomic.2 emptyDB 1 2 "G" none none none none
      none [⟨"a", none⟩, ⟨"b", some 5⟩] 0 1 10).2.2.2.2 1 (by decide)
    simpa using this⟩

/-- Counterexample for C9: at a goal with 40 steps of which 23 are
completed, the program's percentage is Math.round(57.49999999999999) = 57
— the double (23 / 40) * 100 falls strictly below the half-way point —
while the claimed round(100 * 23 / 40) = round(57.5) is 58. -/
theorem claim9_counterexample :
    (getGoalProgress dbForty 1).percentage = 57 ∧
    (200 * (getGoalProgress dbForty 1).completed + (getGoalProgress dbForty 1).total)
        / (2 * (getGoalProgress dbForty 1).total) = 58 := by
  constructor
  · decide
  · decide

/-- C9 (amended): getGoalProgress returns completed equal to the number of
the goal's completed steps, total equal to its number of steps, and
percentage equal to Math.round((completed / total) * 100) computed in IEEE
binary64 arithmetic — which coincides with round(100 * completed / total)
except at ratios where the double product falls on the other side of a
half-way point, such as 23/40 — with percentage 0 when total is 0; a goal
with 3 steps of which 1 is completed yields completed 1, total 3,
percentage 33. -/
theorem claim9_progress :
    (∀ (db : DB) (g : Nat),
      getGoalProgress db g
        = { completed := ((stepsOfGoal db g).filter (fun t => t.isCompleted)).length,
            total := (stepsOfGoal db g).length,
            percentage :=
              if 0 < (stepsOfGoal db g).length then
                jsPercentage
                  ((stepsOfGoal db g).filter (fun t => t.isCompleted)).length
                  (stepsOfGoal db g).length
              else 0 }) ∧
    getGoalProgress dbProgress 1 = { completed := 1, total := 3, percentage := 33 } := by
  refine ⟨?_, by decide⟩
  intro db g
  have hp := List.perm_insertionSort byOrder (stepsOfGoal db g)
  have h1 : (getStepsByGoalId db g).length = (stepsOfGoal db g).length := hp.length_eq
  have h2 : ((getStepsByGoalId db g).filter (fun t => t.isCompleted)).length
      = ((stepsOfGoal db g).filter (fun t => t.isCompleted)).length :=
    (hp.filter _).length_eq
  unfold getGoalProgress
  simp only []
  rw [h1, h2]

/-! ## Deleting a missing step (C10) -/

/-- C10: deleteStep on an id matching no step returns null and performs no
write — no deletion, no renumbering, no error — and the caller-facing
deleteStepAction still reports success. -/
theorem claim10_missing_step_delete :
    ∀ (db : DB) (sid u : Nat),
      db.steps.find? (fun t => t.id == sid) = none →
      deleteStep db sid = (none, db) ∧
      deleteStepAction db (some u) sid = (.ok true, db) := by
  intro db sid u h
  have hd : deleteStep db sid = (none, db) := by
    unfold deleteStep
    rw [h]
  refine ⟨hd, ?_⟩
  unfold deleteStepAction
  rw [hd]

/-- Witness for C10 at the empty database. -/
theorem claim10_witness :
    deleteStep emptyDB 99 = (none, emptyDB) ∧
    deleteStepAction emptyDB (some 1) 99 = (.ok true, emptyDB) :=
  claim10_missing_step_delete emptyDB 99 1 (by decide)

end Masir
